import Mathlib

/-!
Verification of the COMTRADE analyzer's analysis library.

Shallow embedding of the Python sources under `src/`:
Python floats are modelled as exact rationals (every IEEE double is a
rational number); results that involve a square root (`np.sqrt`, `np.std`)
live in `ℝ`; fallible code is modelled with `Except`/`Option`; numpy array
aliasing (for the deep-copy claims) is modelled with an explicit store of
arrays addressed by natural-number references.
-/

namespace Comtrade

/-! ## Python / numpy primitives -/

/-- Python `int(q)` conversion: truncation toward zero. -/
def pyTrunc (q : ℚ) : ℤ := if 0 ≤ q then ⌊q⌋ else ⌈q⌉

/-- Absolute value `np.abs` on an exact rational (spelled with an explicit
branch so that concrete inputs evaluate inside the kernel). -/
def pyAbsQ (q : ℚ) : ℚ := if q < 0 then -q else q

/-- Binary Python `min` on rationals. -/
def pyMinQ (a b : ℚ) : ℚ := if a ≤ b then a else b

/-- Binary Python `max` on rationals. -/
def pyMaxQ (a b : ℚ) : ℚ := if a ≤ b then b else a

/-- Mean of a list, `np.mean`; the empty list (whose numpy mean is NaN) is
mapped to `0`, and every use either guards non-emptiness or models the NaN
outcome separately with `pyMeanNan`. -/
def pyMean (l : List ℚ) : ℚ := l.sum / l.length

/-- NaN-aware mean: `none` models numpy's NaN mean of an empty slice, whose
comparisons are all false. -/
def pyMeanNan (l : List ℚ) : Option ℚ :=
  if l.isEmpty then none else some (pyMean l)

/-- Population variance of a list, the square of `np.std`
(`x**2` is spelled `x*x`). -/
def pyVar (l : List ℚ) : ℚ := pyMean (l.map (fun x => (x - pyMean l) * (x - pyMean l)))

/-- Maximum of a list, `np.max`/Python `max` (callers guard non-emptiness). -/
def pyMax (l : List ℚ) : ℚ := l.foldl pyMaxQ (l.headD 0)

/-- First difference `np.diff`. -/
def pyDiff (l : List ℚ) : List ℚ := l.zipWith (fun a b => b - a) l.tail

/-! ## Python string operations (for channel-name classification) -/

/-- Model of Python list/string prefix test on character lists. -/
def listPrefixOf : List Char → List Char → Bool
  | [], _ => true
  | _ :: _, [] => false
  | a :: as, b :: bs => a = b && listPrefixOf as bs

/-- Model of Python substring containment `needle in hay` (empty needle is
contained in everything, as in Python). -/
def containsFrom : List Char → List Char → Bool
  | hay, needle =>
    if listPrefixOf needle hay then true
    else
      match hay with
      | [] => false
      | _ :: rest => containsFrom rest needle

/-- Python `needle in hay` on strings. -/
def pyIn (needle hay : String) : Bool := containsFrom hay.data needle.data

/-- Python `str.upper()`; ASCII letters are upper-cased, everything else
(including the CJK keywords used by the classifier) is unchanged. -/
def pyUpper (s : String) : String := ⟨s.data.map Char.toUpper⟩

/-! ## Data model (`models/data_models.py`) -/

/-- Model of `ChannelType` enum. -/
inductive ChannelType where
  | ANALOG
  | DIGITAL
  deriving DecidableEq, Repr

/-- Model of `FaultType` enum. -/
inductive FaultType where
  | NONE
  | SINGLE_PHASE_GROUND
  | PHASE_TO_PHASE
  | TWO_PHASE_GROUND
  | THREE_PHASE
  | OVERVOLTAGE
  | UNDERVOLTAGE
  | OVERCURRENT
  | FREQUENCY_DEVIATION
  | HARMONIC_DISTORTION
  | VOLTAGE_SAG
  | VOLTAGE_SWELL
  | TRANSIENT
  | UNKNOWN
  deriving DecidableEq, Repr

/-- Model of `ChannelInfo` dataclass; the numpy sample array is a list of rationals,
and `dtypeIsBool` records whether the array's dtype is `bool` (the one dtype
fact `channel_type` inspects). -/
structure ChannelInfo where
  index : ℤ := 0
  name : String
  phase : String := ""
  unit : String := ""
  multiplier : ℚ := 1
  offset : ℚ := 0
  min_value : ℚ := 0
  max_value : ℚ := 0
  primary : ℚ := 1
  secondary : ℚ := 1
  data : List ℚ := []
  dtypeIsBool : Bool := false
  deriving DecidableEq, Repr

/-- Model of `ChannelInfo.channel_type`: digital iff the dtype is bool or every sample
is 0 or 1 (`np.all(np.isin(data, [0, 1]))`, vacuously true for empty data). -/
def ChannelInfo.channel_type (ch : ChannelInfo) : ChannelType :=
  if ch.dtypeIsBool || ch.data.all (fun v => v = 0 || v = 1) then
    ChannelType.DIGITAL
  else ChannelType.ANALOG

/-- Model of `ChannelInfo.scaled_data`: `data * multiplier + offset`. -/
def ChannelInfo.scaled_data (ch : ChannelInfo) : List ℚ :=
  ch.data.map (fun v => v * ch.multiplier + ch.offset)

/-- Maximum absolute value of a list (`np.max(np.abs(x))`). -/
def maxAbs (l : List ℚ) : ℚ := pyMax (l.map pyAbsQ)

/-- Model of `ChannelInfo.rms_value`: the overflow-hardened RMS of the scaled data for
non-empty analog channels, `0.0` otherwise.  `np.nan_to_num` is the identity
on exact rationals, `np.sqrt` lands in `ℝ`, and the `1e6` rescaling branch is
kept as in the source. -/
noncomputable def ChannelInfo.rms_value (ch : ChannelInfo) : ℝ :=
  if ch.channel_type = ChannelType.ANALOG ∧ 0 < ch.data.length then
    let clean_data := ch.scaled_data
    let max_abs_val := maxAbs clean_data
    let scale_factor : ℚ := if max_abs_val > 10 ^ 6 then 10 ^ 6 / max_abs_val else 1
    let scaled := if max_abs_val > 10 ^ 6 then clean_data.map (fun v => v * scale_factor) else clean_data
    let mean_squared := pyMean (scaled.map (fun v => v ^ 2))
    if 0 ≤ mean_squared then
      (if max_abs_val > 10 ^ 6 then Real.sqrt mean_squared / scale_factor
       else Real.sqrt mean_squared)
    else 0
  else 0

/-- Model of `ChannelInfo.peak_value`: `np.max(np.abs(scaled_data))` for non-empty
analog channels, `0.0` otherwise. -/
def ChannelInfo.peak_value (ch : ChannelInfo) : ℚ :=
  if ch.channel_type = ChannelType.ANALOG ∧ 0 < ch.data.length then
    maxAbs ch.scaled_data
  else 0

/-- Model of `ComtradeRecord` dataclass (the fields the analysis library reads). -/
structure ComtradeRecord where
  station_name : String := ""
  frequency : ℚ := 50
  time_axis : List ℚ := []
  analog_channels : List ChannelInfo := []
  digital_channels : List ChannelInfo := []
  deriving Repr

/-- Model of `ComtradeRecord.duration`: `time_axis[-1] - time_axis[0]` when there are
at least two samples, else `0.0`.  Note this is the record's *length* in
seconds, not its final absolute time. -/
def ComtradeRecord.duration (r : ComtradeRecord) : ℚ :=
  if 1 < r.time_axis.length then r.time_axis.getLastD 0 - r.time_axis.headD 0
  else 0

/-! ## Channel classification (`FaultDetector`, `analysis/fault_detector.py`) -/

/-- Keyword test of `FaultDetector._find_voltage_channels`: the upper-cased
name contains one of `V`, `VOLT`, `U`, `电压`. -/
def isVoltageName (name : String) : Bool :=
  ["V", "VOLT", "U", "电压"].any (fun kw => pyIn kw (pyUpper name))

/-- Keyword test of `FaultDetector._find_current_channels`: the upper-cased
name contains one of `I`, `CURR`, `A`, `电流`. -/
def isCurrentName (name : String) : Bool :=
  ["I", "CURR", "A", "电流"].any (fun kw => pyIn kw (pyUpper name))

/-- Model of `FaultDetector._find_voltage_channels`. -/
def find_voltage_channels (r : ComtradeRecord) : List ChannelInfo :=
  r.analog_channels.filter (fun ch => isVoltageName ch.name)

/-- Model of `FaultDetector._find_current_channels`. -/
def find_current_channels (r : ComtradeRecord) : List ChannelInfo :=
  r.analog_channels.filter (fun ch => isCurrentName ch.name)

/-- Model of `FaultDetector._identify_phase`: the name is upper-cased first, then
`'A'` wins when neither `'B'` nor `'C'` occurs, else `'B'`, else `'C'`,
else the empty (unknown) phase. -/
def identify_phase (channel_name : String) : String :=
  let name_upper := pyUpper channel_name
  if pyIn "A" name_upper && !pyIn "B" name_upper && !pyIn "C" name_upper then "A"
  else if pyIn "B" name_upper then "B"
  else if pyIn "C" name_upper then "C"
  else ""

/-! ## THD (`utils/math_utils.py`, `calculate_thd`) -/

/-- Model of `calculate_thd(harmonics, fundamental_magnitude)`: the harmonic map is an
association list `order ↦ (magnitude, phase)`; the loop accumulates the
squared magnitudes of the orders above 1, and the THD percentage is
`sqrt(sum)/fundamental*100`, with `0.0` returned for a zero fundamental. -/
noncomputable def calculate_thd (harmonics : List (ℕ × ℚ × ℚ)) (fundamental_magnitude : ℚ) : ℝ :=
  if fundamental_magnitude = 0 then 0
  else
    let harmonic_power_sum : ℚ :=
      harmonics.foldl (fun acc h => if h.1 > 1 then acc + h.2.1 ^ 2 else acc) 0
    Real.sqrt harmonic_power_sum / (fundamental_magnitude : ℝ) * 100

/-! ## Fault detection (`analysis/fault_detector.py`) -/

/-- Model of `FaultDetectionConfig` with the source's defaults. -/
structure FaultDetectionConfig where
  undervoltage_threshold : ℚ := 9 / 10
  overvoltage_threshold : ℚ := 11 / 10
  voltage_sag_threshold : ℚ := 9 / 10
  voltage_swell_threshold : ℚ := 11 / 10
  overcurrent_threshold : ℚ := 2
  frequency_deviation_threshold : ℚ := 1
  thd_threshold : ℚ := 5
  unbalance_threshold : ℚ := 2
  min_fault_duration : ℚ := 1 / 100
  transient_window : ℚ := 1 / 10
  detection_sensitivity : ℚ := 3
  deriving Repr

/-- Model of `FaultEvent` dataclass.  The source's `description` strings interpolate
formatted currents/voltages; the numeric formatting is not modelled (no claim
depends on description contents), the strings are carried through verbatim
by the merge logic. -/
structure FaultEvent where
  start_time : ℚ
  end_time : ℚ
  fault_type : FaultType
  affected_channels : List String
  severity : ℚ
  confidence : ℚ
  description : String := ""
  deriving DecidableEq, Repr

/-- Python slice `l[a:b]` (with the usual clamping for out-of-range bounds). -/
def pySlice (l : List ℚ) (a b : ℕ) : List ℚ := (l.take b).drop a

/-- Threshold test of `_detect_short_circuit_faults`:
`|current_diff[i]| > np.std(current_diff) * sensitivity`, decided by the
equivalent squared comparison (`np.std` is the real square root of the
population variance, so for a non-negative sensitivity the comparison holds
iff `var(l)·s² < d²`); `absGtStdMulB_iff` below certifies the decision
against the `Real.sqrt` form. -/
def absGtStdMulB (d s : ℚ) (l : List ℚ) : Bool :=
  if 0 ≤ s then decide (pyVar l * (s * s) < d * d)
  else decide (d ≠ 0 ∨ pyVar l ≠ 0)

/-- Threshold test of `_detect_transient_faults`:
`np.std(window) > np.std(signal_diff) * c`, decided by the equivalent
comparison of variances; `stdGtStdMulB_iff` below certifies it. -/
def stdGtStdMulB (w : List ℚ) (l : List ℚ) (c : ℚ) : Bool :=
  if 0 ≤ c then decide (pyVar l * (c * c) < pyVar w)
  else decide (pyVar w ≠ 0 ∨ pyVar l ≠ 0)

/-- Model of `FaultDetector._classify_short_circuit_type`: counts, among the first 3
current channels, how many carry more than half of the maximum instantaneous
current at the fault sample. -/
def classify_short_circuit_type (r : ComtradeRecord) (fault_point : ℕ) : FaultType :=
  let current_channels := find_current_channels r
  if 3 ≤ current_channels.length then
    let fault_currents := (current_channels.take 3).filterMap
      (fun ch => if fault_point < ch.data.length then some (pyAbsQ (ch.data.getD fault_point 0)) else none)
    if fault_currents.length = 3 then
      let max_current := pyMax fault_currents
      let fault_phases := (fault_currents.filter (fun i => i > max_current * (1 / 2))).length
      if fault_phases = 1 then FaultType.SINGLE_PHASE_GROUND
      else if fault_phases = 2 then FaultType.TWO_PHASE_GROUND
      else if fault_phases = 3 then FaultType.THREE_PHASE
      else FaultType.PHASE_TO_PHASE
    else FaultType.PHASE_TO_PHASE
  else FaultType.PHASE_TO_PHASE

/-- Model of `FaultDetector._detect_short_circuit_faults`.  Per current channel: the
first difference of `|data|` is thresholded at `std × sensitivity`; at each
exceeding point the mean `|current|` of the 10 preceding samples is compared
with the mean over the following 100; a ≥3× jump produces an event with an
assumed 0.5 s duration clamped to `record.duration`.  An empty pre-fault
slice gives a NaN mean in numpy, whose comparison is false (`pyMeanNan`).
When the pre-fault mean is 0 the Python severity is `min(1.0, inf/10) = 1.0`,
modelled by the explicit zero test. -/
def detect_short_circuit_faults (cfg : FaultDetectionConfig) (r : ComtradeRecord) :
    List FaultEvent :=
  (find_current_channels r).flatMap (fun ch =>
    if ch.data.length = 0 then []
    else
      let current_diff := pyDiff (ch.data.map pyAbsQ)
      let fault_points := (List.range current_diff.length).filter
        (fun i => absGtStdMulB (current_diff.getD i 0) cfg.detection_sensitivity current_diff)
      fault_points.filterMap (fun point =>
        let start_idx := point - 10
        let end_idx := min ch.data.length (point + 100)
        let pre_fault_current := pyMeanNan ((pySlice ch.data start_idx point).map pyAbsQ)
        let fault_current := pyMeanNan ((pySlice ch.data point end_idx).map pyAbsQ)
        match pre_fault_current, fault_current with
        | some pre, some fc =>
          if fc > pre * 3 then
            let start_time := if point < r.time_axis.length then r.time_axis.getD point 0 else 0
            let end_time := pyMinQ (start_time + 1 / 2) r.duration
            let severity := if pre = 0 then 1 else pyMinQ 1 (fc / pre / 10)
            some { start_time := start_time
                   end_time := end_time
                   fault_type := classify_short_circuit_type r point
                   affected_channels := [ch.name]
                   severity := severity
                   confidence := 7 / 10
                   description := "短路故障" }
          else none
        | _, _ => none))

/-- Model of `FaultDetector._detect_transient_faults`.  Per analog channel: slide a
window (1% of the sample count, at least 5) over the first difference; the
first window whose standard deviation exceeds twice the whole-difference
standard deviation yields one TRANSIENT event spanning
`[t_i, min(t_i + transient_window, record.duration)]`. -/
def detect_transient_faults (cfg : FaultDetectionConfig) (r : ComtradeRecord) :
    List FaultEvent :=
  r.analog_channels.flatMap (fun ch =>
    if ch.data.length = 0 then []
    else
      let signal_diff := pyDiff ch.data
      let w0 := (pyTrunc ((ch.data.length : ℚ) * (1 / 100))).toNat
      let window_size := if w0 < 5 then 5 else w0
      match (List.range (signal_diff.length - window_size)).find?
          (fun i => stdGtStdMulB (pySlice signal_diff i (i + window_size)) signal_diff 2) with
      | some i =>
        let start_time := if i < r.time_axis.length then r.time_axis.getD i 0 else 0
        let end_time := start_time + cfg.transient_window
        [{ start_time := start_time
           end_time := pyMinQ end_time r.duration
           fault_type := FaultType.TRANSIENT
           affected_channels := [ch.name]
           severity := 1 / 2
           confidence := 1 / 2
           description := "暂态扰动检测" }]
      | none => [])

end Comtrade


namespace Comtrade

/-! ## Event merging and the `detect_faults` pipeline -/

/-- Key order used by both sorts in `detect_faults`
(`events.sort(key=lambda x: x.start_time)`). -/
def evLe (a b : FaultEvent) : Prop := a.start_time ≤ b.start_time

instance : DecidableRel evLe := fun a b =>
  inferInstanceAs (Decidable (a.start_time ≤ b.start_time))

instance : IsTotal FaultEvent evLe := ⟨fun a b => le_total a.start_time b.start_time⟩

instance : IsTrans FaultEvent evLe := ⟨fun _ _ _ => le_trans⟩

/-- Python's `list.sort(key=lambda x: x.start_time)` (Timsort) is a stable
sort by the start-time key; it is modelled by the stable insertion sort on
the reflexive key order, which computes the same list. -/
def sortByStart (events : List FaultEvent) : List FaultEvent :=
  List.insertionSort evLe events

/-- Merge of two overlapping events of the same fault type inside
`_merge_overlapping_events`: the span is widened to the union, severity is
the max, confidence the average, the affected channels the union of the two
channel sets (`list(set(a + b))`, whose arbitrary set order is modelled by
`dedup` — every claim about it is a set-membership statement), and the
descriptions are concatenated with `"; "`. -/
def mergeTwo (last cur : FaultEvent) : FaultEvent :=
  { last with
    end_time := pyMaxQ last.end_time cur.end_time
    severity := pyMaxQ last.severity cur.severity
    confidence := (last.confidence + cur.confidence) / 2
    affected_channels := (last.affected_channels ++ cur.affected_channels).dedup
    description := last.description ++ "; " ++ cur.description }

/-- One step of the merge loop: the accumulator holds the merged list in
reverse (its head is Python's `merged[-1]`). -/
def mergeFold (acc : List FaultEvent) (cur : FaultEvent) : List FaultEvent :=
  match acc with
  | [] => [cur]
  | last :: rest =>
    if cur.start_time ≤ last.end_time ∧ cur.fault_type = last.fault_type then
      mergeTwo last cur :: rest
    else cur :: last :: rest

/-- Model of `FaultDetector._merge_overlapping_events`: sort by start time, then fold
adjacent events, merging a new event into the last merged one whenever it
starts before that event ends and has the same fault type. -/
def merge_overlapping_events (events : List FaultEvent) : List FaultEvent :=
  match sortByStart events with
  | [] => []
  | e :: es => (es.foldl mergeFold [e]).reverse

/-- The five detection sub-routines of `detect_faults` whose embeddings
would require exact models of scipy's Hilbert transform, FFT feature
extraction and windowed RMS estimation
(`_detect_voltage_faults`, `_detect_current_faults`,
`_detect_frequency_faults`, `_detect_harmonic_faults`,
`_detect_unbalance_faults`); they are parameters of the pipeline model, each
returning either an event list or the exception it raises. -/
structure ExternalDetectors where
  voltage : FaultDetectionConfig → ComtradeRecord → Except String (List FaultEvent)
  current : FaultDetectionConfig → ComtradeRecord → Except String (List FaultEvent)
  frequency : FaultDetectionConfig → ComtradeRecord → Except String (List FaultEvent)
  harmonic : FaultDetectionConfig → ComtradeRecord → Except String (List FaultEvent)
  unbalance : FaultDetectionConfig → ComtradeRecord → Except String (List FaultEvent)

/-- Body of the `try:` block of `FaultDetector.detect_faults`: the seven
sub-detectors are run in source order and their events concatenated; a
raised exception propagates (`Except.error`).  The two fully-embedded
sub-detectors are total. -/
def detect_faults_body (d : ExternalDetectors) (cfg : FaultDetectionConfig)
    (r : ComtradeRecord) : Except String (List FaultEvent) := do
  let e1 ← d.voltage cfg r
  let e2 ← d.current cfg r
  let e3 ← d.frequency cfg r
  let e4 ← d.harmonic cfg r
  let e5 ← d.unbalance cfg r
  pure (e1 ++ e2 ++ e3 ++ e4 ++ e5 ++
    detect_short_circuit_faults cfg r ++ detect_transient_faults cfg r)

/-- Model of `FaultDetector.detect_faults`: on success the concatenated events are
merged and sorted by start time; any exception raised inside the body is
caught at the top level and an empty list is returned. -/
def detect_faults (d : ExternalDetectors) (cfg : FaultDetectionConfig)
    (r : ComtradeRecord) : List FaultEvent :=
  match detect_faults_body d cfg r with
  | Except.ok fault_events => sortByStart (merge_overlapping_events fault_events)
  | Except.error _ => []

/-! ## FFT analysis (`utils/math_utils.py`, `fft_analysis`) -/

/-- Model of `np.fft.fftfreq(n, d)`: `n - n/2` non-negative frequencies `k/(n·d)`
(`n - n/2` equals numpy's `(n-1)//2 + 1` signed computation for every `n`,
including `n = 0`), followed by the negative frequencies
`-(n/2)/(n·d) .. -1/(n·d)`. -/
def fftfreq (n : ℕ) (d : ℚ) : List ℚ :=
  (List.range (n - n / 2)).map (fun k : ℕ => (k : ℚ) / (n * d)) ++
    (List.range (n / 2)).map (fun j : ℕ => ((j : ℚ) - ((n / 2 : ℕ) : ℚ)) / (n * d))

/-- In-place `positive_magnitudes[0] /= 2` guarded by a non-emptiness test. -/
noncomputable def halveHead : List ℝ → List ℝ
  | [] => []
  | x :: xs => x / 2 :: xs

/-- Model of `fft_analysis(data, fs)`.  The external complex FFT (`scipy.fft.fft`) is
a parameter `fftImpl` (its output has one bin per sample); the function
returns the first half of the frequency bins and the correspondingly scaled
single-sided magnitudes `|FFT|·2/N`, with the DC magnitude halved back. -/
noncomputable def fft_analysis (fftImpl : List ℚ → List ℂ) (data : List ℚ) (fs : ℚ) :
    List ℚ × List ℝ :=
  let fft_data := fftImpl data
  let freqs := fftfreq data.length (1 / fs)
  let positive_freqs := freqs.take (freqs.length / 2)
  let positive_magnitudes := (fft_data.take (fft_data.length / 2)).map
    (fun z => Complex.abs z * 2 / (data.length : ℝ))
  (positive_freqs, halveHead positive_magnitudes)

/-! ## Resampling (`utils/math_utils.py`, `resample_signal`) -/

/-- Model of the external `scipy.signal.resample(data, num)`: an FFT-domain
resampler whose output always has exactly `num` samples; the sample values
are outside this development (the repository relies only on the length), and
are modelled by truncation/zero-padding to `num` samples. -/
def scipyResample (data : List ℚ) (num : ℕ) : List ℚ :=
  (data ++ List.replicate num 0).take num

/-- Model of `resample_signal(data, original_fs, target_fs)`: identity for equal
rates, otherwise resampling to `int(len(data) * target_fs/original_fs)`
samples (`int` truncates toward zero). -/
def resample_signal (data : List ℚ) (original_fs target_fs : ℚ) : List ℚ :=
  if original_fs = target_fs then data
  else
    let ratio := target_fs / original_fs
    let new_length := pyTrunc ((data.length : ℚ) * ratio)
    scipyResample data new_length.toNat

/-! ## Pattern templates (`analysis/pattern_recognizer.py`) -/

/-- Per-feature score inside `PatternTemplate.match_score`: `1.0` within the
inclusive `[min_val, max_val]` range, else `max(0, 1 - deviation)` where the
deviation is the out-of-range distance divided by the violated bound. -/
def featureScore (min_val max_val value : ℚ) : ℚ :=
  if min_val ≤ value ∧ value ≤ max_val then 1
  else if value < min_val then pyMaxQ 0 (1 - (min_val - value) / min_val)
  else pyMaxQ 0 (1 - (value - max_val) / max_val)

/-- Model of `PatternTemplate.match_score`: the template's feature dict is an
association list `name ↦ (min, max)`, the input a list `name ↦ value`; the
loop accumulates the total score and the matched-feature count over the
features present in the input, returning their quotient (0 with no match). -/
def match_score (features : List (String × ℚ × ℚ))
    (input_features : List (String × ℚ)) : ℚ :=
  let st := features.foldl
    (fun (acc : ℚ × ℕ) f =>
      match input_features.lookup f.1 with
      | some value => (acc.1 + featureScore f.2.1 f.2.2 value, acc.2 + 1)
      | none => acc) (0, 0)
  if 0 < st.2 then st.1 / (st.2 : ℚ) else 0

/-- The list of per-feature scores for the features present in the input, in
template order (specification-level view of the `match_score` loop). -/
def matchedScores (features : List (String × ℚ × ℚ))
    (input_features : List (String × ℚ)) : List ℚ :=
  features.filterMap
    (fun f => (input_features.lookup f.1).map (fun v => featureScore f.2.1 f.2.2 v))

/-! ## Data preprocessing (`core/data_processor.py`), with explicit array
aliasing.  numpy arrays are mutable objects; to state the deep-copy claim a
record holds *references* into a store of arrays, allocation appends to the
store, and every Python statement `channel.data = f(channel.data)` allocates
the freshly computed array and rebinds the reference. -/

/-- A store of numpy arrays addressed by allocation order. -/
abbrev Store := List (List ℚ)

/-- Allocation of a fresh array: append to the store, return the new store
and the new reference. -/
def allocArr (s : Store) (v : List ℚ) : Store × ℕ :=
  (List.append s [v], List.length s)

/-- Dereference an array. -/
def readArr (s : Store) (ref : ℕ) : List ℚ :=
  List.getD s ref []

/-- In-place mutation of the array behind `ref` (the "mutating the returned
record" act of the deep-copy claim). -/
def writeArr (s : Store) (ref : ℕ) (v : List ℚ) : Store :=
  List.set s ref v

/-- Model of `ChannelInfo` as the preprocessing code sees it: the sample array is a
reference into the store; `dtypeIsBool` is the dtype of the referenced
array. -/
structure ChannelRef where
  index : ℤ := 0
  name : String := ""
  phase : String := ""
  unit : String := ""
  multiplier : ℚ := 1
  offset : ℚ := 0
  min_value : ℚ := 0
  max_value : ℚ := 0
  primary : ℚ := 1
  secondary : ℚ := 1
  dataRef : ℕ
  dtypeIsBool : Bool := false

/-- Model of `ComtradeRecord` with referenced arrays. -/
structure RecordRef where
  station_name : String := ""
  frequency : ℚ := 50
  time_axisRef : ℕ
  sample_rates : List (ℕ × ℕ) := []
  analog_channels : List ChannelRef := []
  digital_channels : List ChannelRef := []

/-- Analog-channel loop of `DataProcessor._copy_record`: every field is
copied and `channel.data.copy()` allocates a fresh array with the same
contents. -/
def copyAnalogChannels : Store → List ChannelRef → List ChannelRef × Store
  | s, [] => ([], s)
  | s, ch :: rest =>
    let p := allocArr s (readArr s ch.dataRef)
    let q := copyAnalogChannels p.1 rest
    ({ ch with dataRef := p.2 } :: q.1, q.2)

/-- Digital-channel loop of `_copy_record`: only index/name/phase/unit and
the copied data array are carried over (the source omits the scaling fields,
which therefore reset to their dataclass defaults). -/
def copyDigitalChannels : Store → List ChannelRef → List ChannelRef × Store
  | s, [] => ([], s)
  | s, ch :: rest =>
    let p := allocArr s (readArr s ch.dataRef)
    let q := copyDigitalChannels p.1 rest
    ({ index := ch.index, name := ch.name, phase := ch.phase, unit := ch.unit,
       dataRef := p.2, dtypeIsBool := ch.dtypeIsBool } :: q.1, q.2)

/-- Model of `DataProcessor._copy_record`: fresh copies of every analog and digital
channel array, of `sample_rates` (immutable pairs, so a value copy) and of
the time axis. -/
def copy_record (s : Store) (r : RecordRef) : RecordRef × Store :=
  let pa := copyAnalogChannels s r.analog_channels
  let pd := copyDigitalChannels pa.2 r.digital_channels
  let pt := allocArr pd.2 (readArr pd.2 r.time_axisRef)
  ({ r with
      analog_channels := pa.1
      digital_channels := pd.1
      time_axisRef := pt.2 }, pt.1)

/-- Model of `remove_dc_component` (`utils/math_utils.py`): subtract the mean. -/
def remove_dc_component (data : List ℚ) : List ℚ :=
  data.map (fun v => v - pyMean data)

/-- Minimum of a list, `np.min` (callers guard non-emptiness). -/
def pyMinList (l : List ℚ) : ℚ := l.foldl pyMinQ (l.headD 0)

/-- Maximum of a list as used by `normalize_signal`. -/
def pyMaxList (l : List ℚ) : ℚ := l.foldl pyMaxQ (l.headD 0)

/-- The exact `minmax` branch of `normalize_signal`
(`utils/math_utils.py`): scale into `[0, 1]`, or an all-zero array when the
data is constant (`np.zeros_like`). -/
def normalize_minmax (data : List ℚ) : List ℚ :=
  let min_val := pyMinList data
  let max_val := pyMaxList data
  if max_val ≠ min_val then data.map (fun v => (v - min_val) / (max_val - min_val))
  else List.replicate data.length 0

/-- Full convolution of `a` with kernel `v` (the full-mode `np.convolve`). -/
def convolveFull (a v : List ℚ) : List ℚ :=
  (List.range (a.length + v.length - 1)).map (fun k =>
    ((List.range a.length).map (fun j =>
      if j ≤ k ∧ k - j < v.length then a.getD j 0 * v.getD (k - j) 0 else 0)).sum)

/-- Model of `moving_average` (`utils/math_utils.py`): identity for degenerate
windows, else convolution with a uniform kernel in numpy same-length mode
(the centered slice of the full convolution). -/
def moving_average (data : List ℚ) (window_size : ℕ) : List ℚ :=
  if window_size ≤ 1 ∨ data.length < window_size then data
  else
    let kernel := List.replicate window_size ((1 : ℚ) / window_size)
    ((convolveFull data kernel).drop ((window_size - 1) / 2)).take data.length

/-- Externals of the preprocessing pipeline: the scipy Butterworth filters
(`butter` + `filtfilt`) and the irrational-valued `zscore`/`unit`
normalizations; their float outputs are parameters of the model. -/
structure PreprocessExternals where
  butterLow : ℚ → ℚ → ℕ → List ℚ → List ℚ
  butterHigh : ℚ → ℚ → ℕ → List ℚ → List ℚ
  butterBand : ℚ → ℚ → ℚ → ℕ → List ℚ → List ℚ
  zscoreNorm : List ℚ → List ℚ
  unitNorm : List ℚ → List ℚ

/-- Model of `normalize_signal(data, method)`: exact `minmax`, external
`zscore`/`unit`, identity copy otherwise. -/
def normalize_signal (ext : PreprocessExternals) (data : List ℚ) (method : String) :
    List ℚ :=
  if method = "minmax" then normalize_minmax data
  else if method = "zscore" then ext.zscoreNorm data
  else if method = "unit" then ext.unitNorm data
  else data

/-- The `filter_config` dict of `DataProcessor._apply_filter`; `none` models
an absent key, whose `.get` default is applied at the use site. -/
structure FilterConfig where
  type : Option String := none
  cutoff : Option ℚ := none
  order : Option ℕ := none
  low_freq : Option ℚ := none
  high_freq : Option ℚ := none
  window_size : Option ℕ := none

/-- Model of `DataProcessor._apply_filter`: dispatch on the filter type with the
source's `.get` defaults (cutoff defaults to `0.4 × sampling_freq`,
band edges to `0.5 × cutoff` and `cutoff`, order to 5, window to 5);
unknown types return the data unchanged. -/
def apply_filter (ext : PreprocessExternals) (data : List ℚ) (sampling_freq : ℚ)
    (fc : FilterConfig) : List ℚ :=
  let filter_type := fc.type.getD "lowpass"
  let cutoff_freq := fc.cutoff.getD (sampling_freq * (4 / 10))
  let order := fc.order.getD 5
  if filter_type = "lowpass" then ext.butterLow cutoff_freq sampling_freq order data
  else if filter_type = "highpass" then ext.butterHigh cutoff_freq sampling_freq order data
  else if filter_type = "bandpass" then
    ext.butterBand (fc.low_freq.getD (cutoff_freq * (1 / 2)))
      (fc.high_freq.getD cutoff_freq) sampling_freq order data
  else if filter_type = "moving_average" then moving_average data (fc.window_size.getD 5)
  else data

/-- Model of `np.ndarray.astype(bool)` on a sample array: nonzero becomes 1. -/
def astypeBool (data : List ℚ) : List ℚ :=
  data.map (fun v => if v = 0 then 0 else 1)

/-- Model of `DataProcessor._remove_digital_spikes`: a sample differing from both
neighbors while the neighbors agree is replaced by the neighbor value (reads
come from the unmodified input array, writes go to the copy). -/
def remove_digital_spikes (data : List ℚ) : List ℚ :=
  if data.length < 3 then data
  else
    (List.range data.length).map (fun i =>
      if 1 ≤ i ∧ i < data.length - 1 ∧ data.getD i 0 ≠ data.getD (i - 1) 0 ∧
          data.getD i 0 ≠ data.getD (i + 1) 0 ∧ data.getD (i - 1) 0 = data.getD (i + 1) 0
      then data.getD (i - 1) 0 else data.getD i 0)

/-- The preprocessing config dict, mirroring
`DataProcessor._get_default_config` (which is also the `config=None`
default). -/
structure PreprocessConfig where
  process_analog : Bool := true
  process_digital : Bool := true
  process_time : Bool := false
  remove_dc : Bool := true
  apply_filter : Bool := false
  normalize : Bool := false
  resample : Bool := false
  remove_spikes : Bool := false
  filter_config : FilterConfig :=
    { type := some "lowpass", cutoff := some 1000, order := some 5 }
  normalize_method : String := "minmax"
  target_sampling_rate : Option ℚ := none

/-- Per-channel body of `DataProcessor._preprocess_analog_channels`: each
enabled step computes a new array from the current one, allocates it and
rebinds `channel.data`.  A `target_sampling_rate` of `None` raises a
`TypeError` caught by the per-channel handler (the channel is left as it
was), as does `time_axis[1]` on a short time axis. -/
def processAnalogChannel (ext : PreprocessExternals) (cfg : PreprocessConfig)
    (freq : ℚ) (taRef : ℕ) (s : Store) (ch : ChannelRef) : ChannelRef × Store :=
  let step1 : ChannelRef × Store :=
    if cfg.remove_dc then
      let p := allocArr s (remove_dc_component (readArr s ch.dataRef))
      ({ ch with dataRef := p.2 }, p.1)
    else (ch, s)
  let step2 : ChannelRef × Store :=
    if cfg.apply_filter then
      let p := allocArr step1.2
        (apply_filter ext (readArr step1.2 step1.1.dataRef) freq cfg.filter_config)
      ({ step1.1 with dataRef := p.2 }, p.1)
    else step1
  let step3 : ChannelRef × Store :=
    if cfg.normalize then
      let p := allocArr step2.2
        (normalize_signal ext (readArr step2.2 step2.1.dataRef) cfg.normalize_method)
      ({ step2.1 with dataRef := p.2 }, p.1)
    else step2
  if cfg.resample then
    match cfg.target_sampling_rate with
    | none => step3
    | some target_fs =>
      if target_fs ≠ freq then
        let ta := readArr step3.2 taRef
        if 2 ≤ ta.length then
          let original_fs := 1 / (ta.getD 1 0 - ta.getD 0 0)
          let p := allocArr step3.2
            (resample_signal (readArr step3.2 step3.1.dataRef) original_fs target_fs)
          ({ step3.1 with dataRef := p.2 }, p.1)
        else step3
      else step3
  else step3

/-- The analog-channel loop, threading the store. -/
def processAnalogChannels (ext : PreprocessExternals) (cfg : PreprocessConfig)
    (freq : ℚ) (taRef : ℕ) : Store → List ChannelRef → List ChannelRef × Store
  | s, [] => ([], s)
  | s, ch :: rest =>
    let p := processAnalogChannel ext cfg freq taRef s ch
    let q := processAnalogChannels ext cfg freq taRef p.2 rest
    (p.1 :: q.1, q.2)

/-- Per-channel body of `DataProcessor._preprocess_digital_channels`: coerce
to boolean dtype when needed (`astype` allocates a new array; an
already-boolean array is left in place), then optionally de-spike. -/
def processDigitalChannel (cfg : PreprocessConfig) (s : Store) (ch : ChannelRef) :
    ChannelRef × Store :=
  let step1 : ChannelRef × Store :=
    if !ch.dtypeIsBool then
      let p := allocArr s (astypeBool (readArr s ch.dataRef))
      ({ ch with dataRef := p.2, dtypeIsBool := true }, p.1)
    else (ch, s)
  if cfg.remove_spikes then
    let p := allocArr step1.2 (remove_digital_spikes (readArr step1.2 step1.1.dataRef))
    ({ step1.1 with dataRef := p.2 }, p.1)
  else step1

/-- The digital-channel loop. -/
def processDigitalChannels (cfg : PreprocessConfig) :
    Store → List ChannelRef → List ChannelRef × Store
  | s, [] => ([], s)
  | s, ch :: rest =>
    let p := processDigitalChannel cfg s ch
    let q := processDigitalChannels cfg p.2 rest
    (p.1 :: q.1, q.2)

/-- Model of `DataProcessor.preprocess_record` (normal completion): deep-copy the
record, then run the enabled analog and digital preprocessing passes on the
copy (the time-axis hook performs no transformation).  The model is total:
per-channel exceptions of the source leave that channel partially processed
and are modelled by the corresponding skip branches. -/
def preprocess_record (ext : PreprocessExternals) (cfg : PreprocessConfig)
    (s : Store) (r : RecordRef) : RecordRef × Store :=
  let pc := copy_record s r
  let r1 := pc.1
  let pa :=
    if cfg.process_analog then
      processAnalogChannels ext cfg r1.frequency r1.time_axisRef pc.2 r1.analog_channels
    else (r1.analog_channels, pc.2)
  let pd :=
    if cfg.process_digital then processDigitalChannels cfg pa.2 r1.digital_channels
    else (r1.digital_channels, pa.2)
  ({ r1 with analog_channels := pa.1, digital_channels := pd.1 }, pd.2)

/-- All array references reachable from a record: the time axis and every
channel's sample array. -/
def recordRefs (r : RecordRef) : List ℕ :=
  r.time_axisRef ::
    (r.analog_channels.map (fun ch => ch.dataRef) ++
      r.digital_channels.map (fun ch => ch.dataRef))

/-- A record whose time axis starts at 10 s (9 samples, 1 ms apart) with one
current channel carrying a 1 A steady current that jumps to 9 A at the last
sample — a short-circuit signature at fault point 7. -/
def c2Record : ComtradeRecord :=
  { station_name := "shifted"
    frequency := 50
    time_axis := [10, 10 + 1/1000, 10 + 2/1000, 10 + 3/1000, 10 + 4/1000,
      10 + 5/1000, 10 + 6/1000, 10 + 7/1000, 10 + 8/1000]
    analog_channels := [{ name := "IA", data := [1, 1, 1, 1, 1, 1, 1, 1, 9] }] }

/-- The short-circuit event the detector produces on `c2Record`: its start
is the absolute fault time `10.007 s`, while its end is
`min(start + 0.5, record.duration) = duration = 0.008 s` — `duration` is the
record *length*, not its end time, so the clamp pulls the end before the
start. -/
def c2Event : FaultEvent :=
  { start_time := 10 + 7/1000
    end_time := 8/1000
    fault_type := FaultType.PHASE_TO_PHASE
    affected_channels := ["IA"]
    severity := 1/2
    confidence := 7/10
    description := "短路故障" }

/-- Store evolution during preprocessing only appends fresh arrays. -/
def storePrefix (s s' : Store) : Prop := ∃ t, s' = s ++ t

/-- Invariant carried through the per-channel steps: the store has only
grown from `s0`, and the channel's array is either still the one it started
with (`c0`) or a freshly allocated one. -/
def stepOk (s0 : Store) (c0 : ℕ) (p : ChannelRef × Store) : Prop :=
  storePrefix s0 p.2 ∧ (p.1.dataRef = c0 ∨ s0.length ≤ p.1.dataRef)

end Comtrade

namespace Comtrade

theorem pyVar_nonneg (l : List ℚ) : 0 ≤ pyVar l := by
  unfold pyVar pyMean
  apply div_nonneg
  · apply List.sum_nonneg
    intro x hx
    simp only [List.mem_map] at hx
    obtain ⟨y, -, rfl⟩ := hx
    exact mul_self_nonneg _
  · positivity

theorem thd_foldl_eq_sum (harmonics : List (ℕ × ℚ × ℚ)) (a : ℚ) :
    harmonics.foldl (fun acc h => if h.1 > 1 then acc + h.2.1 ^ 2 else acc) a =
      a + ((harmonics.filter (fun h => 1 < h.1)).map (fun h => h.2.1 ^ 2)).sum := by
  induction harmonics generalizing a with
  | nil => simp
  | cons h t ih =>
    by_cases hh : 1 < h.1
    · simp [List.filter_cons, hh, ih, add_assoc]
    · simp [List.filter_cons, hh, ih]

theorem absGtStdMulB_iff (d s : ℚ) (l : List ℚ) :
    absGtStdMulB d s l = true ↔ ((pyAbsQ d : ℚ) : ℝ) > Real.sqrt (pyVar l) * (s : ℝ) := by
  have hv : 0 ≤ pyVar l := pyVar_nonneg l
  have hvR : (0 : ℝ) ≤ (pyVar l : ℚ) := by exact_mod_cast hv
  have habs : pyAbsQ d = |d| := by
    unfold pyAbsQ
    split
    · exact (abs_of_neg (by assumption)).symm
    · exact (abs_of_nonneg (le_of_not_lt (by assumption))).symm
  unfold absGtStdMulB
  rw [habs]
  by_cases hs : 0 ≤ s
  · rw [if_pos hs, decide_eq_true_eq, gt_iff_lt,
      show pyVar l * (s * s) = pyVar l * s ^ 2 from by ring,
      show d * d = d ^ 2 from by ring]
    have hsR : (0 : ℝ) ≤ (s : ℚ) := by exact_mod_cast hs
    have hmul : Real.sqrt (pyVar l) * (s : ℝ) = Real.sqrt ((pyVar l : ℚ) * (s : ℚ) ^ 2) := by
      rw [Real.sqrt_mul hvR, Real.sqrt_sq hsR]
    rw [hmul]
    rcases eq_or_ne d 0 with hd | hd
    · subst hd
      simp only [abs_zero, Rat.cast_zero]
      constructor
      · intro h
        exact absurd h (by simp; positivity)
      · intro h
        exact absurd h (not_lt.mpr (Real.sqrt_nonneg _))
    · have hd' : (0 : ℝ) < ((|d| : ℚ) : ℝ) := by
        have : (0 : ℚ) < |d| := abs_pos.mpr hd
        exact_mod_cast this
      rw [Real.sqrt_lt' hd']
      constructor
      · intro h
        have h' : ((pyVar l : ℚ) : ℝ) * ((s : ℚ) : ℝ) ^ 2 < ((d : ℚ) : ℝ) ^ 2 := by
          exact_mod_cast h
        calc ((pyVar l : ℚ) : ℝ) * ((s : ℚ) : ℝ) ^ 2
            < ((d : ℚ) : ℝ) ^ 2 := h'
          _ = ((|d| : ℚ) : ℝ) ^ 2 := by push_cast; rw [sq_abs]
      · intro h
        have h' : ((pyVar l : ℚ) : ℝ) * ((s : ℚ) : ℝ) ^ 2 < ((d : ℚ) : ℝ) ^ 2 := by
          calc ((pyVar l : ℚ) : ℝ) * ((s : ℚ) : ℝ) ^ 2
              < ((|d| : ℚ) : ℝ) ^ 2 := h
            _ = ((d : ℚ) : ℝ) ^ 2 := by push_cast; rw [sq_abs]
        exact_mod_cast h'
  · rw [if_neg hs, decide_eq_true_eq, gt_iff_lt]
    push_neg at hs
    have hsR : ((s : ℚ) : ℝ) < 0 := by exact_mod_cast hs
    constructor
    · rintro (hd | hv0)
      · have h1 : (0 : ℝ) < ((|d| : ℚ) : ℝ) := by
          have : (0 : ℚ) < |d| := abs_pos.mpr hd
          exact_mod_cast this
        have h2 : Real.sqrt (pyVar l) * (s : ℝ) ≤ 0 :=
          mul_nonpos_of_nonneg_of_nonpos (Real.sqrt_nonneg _) (le_of_lt hsR)
        linarith
      · have hv' : (0 : ℝ) < (pyVar l : ℚ) := by
          have : (0 : ℚ) < pyVar l := lt_of_le_of_ne hv (Ne.symm hv0)
          exact_mod_cast this
        have h2 : Real.sqrt (pyVar l) * (s : ℝ) < 0 :=
          mul_neg_of_pos_of_neg (Real.sqrt_pos.mpr hv') hsR
        have h1 : (0 : ℝ) ≤ ((|d| : ℚ) : ℝ) := by
          have : (0 : ℚ) ≤ |d| := abs_nonneg d
          exact_mod_cast this
        linarith
    · intro h
      by_contra hcon
      push_neg at hcon
      obtain ⟨hd0, hv0⟩ := hcon
      rw [hd0, hv0] at h
      simp [Real.sqrt_zero] at h

theorem stdGtStdMulB_iff (w l : List ℚ) (c : ℚ) :
    stdGtStdMulB w l c = true ↔ Real.sqrt (pyVar w) > Real.sqrt (pyVar l) * (c : ℝ) := by
  have hvw : 0 ≤ pyVar w := pyVar_nonneg w
  have hvl : 0 ≤ pyVar l := pyVar_nonneg l
  have hvwR : (0 : ℝ) ≤ (pyVar w : ℚ) := by exact_mod_cast hvw
  have hvlR : (0 : ℝ) ≤ (pyVar l : ℚ) := by exact_mod_cast hvl
  unfold stdGtStdMulB
  by_cases hc : 0 ≤ c
  · rw [if_pos hc, decide_eq_true_eq, gt_iff_lt,
      show pyVar l * (c * c) = pyVar l * c ^ 2 from by ring]
    have hcR : (0 : ℝ) ≤ (c : ℚ) := by exact_mod_cast hc
    have hmul : Real.sqrt (pyVar l) * (c : ℝ) = Real.sqrt ((pyVar l : ℚ) * (c : ℚ) ^ 2) := by
      rw [Real.sqrt_mul hvlR, Real.sqrt_sq hcR]
    rw [hmul, Real.sqrt_lt_sqrt_iff (mul_nonneg hvlR (sq_nonneg _))]
    constructor
    · intro h; exact_mod_cast h
    · intro h; exact_mod_cast h
  · rw [if_neg hc, decide_eq_true_eq, gt_iff_lt]
    push_neg at hc
    have hcR : ((c : ℚ) : ℝ) < 0 := by exact_mod_cast hc
    constructor
    · rintro (hw0 | hl0)
      · have hw' : (0 : ℝ) < (pyVar w : ℚ) := by
          have : (0 : ℚ) < pyVar w := lt_of_le_of_ne hvw (Ne.symm hw0)
          exact_mod_cast this
        have h2 : Real.sqrt (pyVar l) * (c : ℝ) ≤ 0 :=
          mul_nonpos_of_nonneg_of_nonpos (Real.sqrt_nonneg _) (le_of_lt hcR)
        have h1 : (0 : ℝ) < Real.sqrt (pyVar w) := Real.sqrt_pos.mpr hw'
        linarith
      · have hl' : (0 : ℝ) < (pyVar l : ℚ) := by
          have : (0 : ℚ) < pyVar l := lt_of_le_of_ne hvl (Ne.symm hl0)
          exact_mod_cast this
        have h2 : Real.sqrt (pyVar l) * (c : ℝ) < 0 :=
          mul_neg_of_pos_of_neg (Real.sqrt_pos.mpr hl') hcR
        have h1 : (0 : ℝ) ≤ Real.sqrt (pyVar w) := Real.sqrt_nonneg _
        linarith
    · intro h
      by_contra hcon
      push_neg at hcon
      obtain ⟨hw0, hl0⟩ := hcon
      rw [hw0, hl0] at h
      simp [Real.sqrt_zero] at h

end Comtrade

namespace Comtrade

/-! ## Claim C3: channel-name classification -/

/-- C3 counterexample: the claim maps "Ua" to an unknown phase, but
`_identify_phase` upper-cases the name before testing, so "Ua" gets phase
"A"; and "VA" (which contains both a voltage and a current keyword) is
matched by both channel filters rather than being classified only as
voltage. -/
theorem C3_counterexample :
    ¬ (identify_phase "Ua" = "") ∧ identify_phase "Ua" = "A" ∧
      isVoltageName "VA" = true ∧ isCurrentName "VA" = true := by
  decide

/-- C3 (amended): classification and phase inference on the four names:
"VA" matches the voltage keywords (and, containing "A", also the current
keywords) with phase A; "IA" matches only the current keywords with phase A;
"Ua" matches the voltage keywords (and, upper-cased to "UA", also the
current keyword "A") and — because the name is upper-cased before the phase
test — phase A rather than unknown; "PhaseC_I" matches only the current
keywords with phase C.  The two keyword filters are independent,
so a record channel whose name matches both lists appears in both the
voltage-channel and the current-channel lists. -/
theorem C3_classification_amended :
    identify_phase "VA" = "A" ∧ isVoltageName "VA" = true ∧ isCurrentName "VA" = true ∧
    identify_phase "IA" = "A" ∧ isVoltageName "IA" = false ∧ isCurrentName "IA" = true ∧
    identify_phase "Ua" = "A" ∧ isVoltageName "Ua" = true ∧ isCurrentName "Ua" = true ∧
    identify_phase "PhaseC_I" = "C" ∧ isVoltageName "PhaseC_I" = false ∧
      isCurrentName "PhaseC_I" = true ∧
    find_voltage_channels
        { analog_channels := [{ name := "VA" }, { name := "IA" }, { name := "Ua" },
            { name := "PhaseC_I" }] } =
      [{ name := "VA" }, { name := "Ua" }] ∧
    find_current_channels
        { analog_channels := [{ name := "VA" }, { name := "IA" }, { name := "Ua" },
            { name := "PhaseC_I" }] } =
      [{ name := "VA" }, { name := "IA" }, { name := "Ua" }, { name := "PhaseC_I" }] := by
  decide

/-! ## Claim C4: total harmonic distortion -/

/-- C4: `calculate_thd` returns 0 for a zero fundamental and otherwise
`100·sqrt(Σ_{order>1} magnitude²)/fundamental`; for a fundamental of 10 and
a single 3rd harmonic of magnitude 1 it returns exactly 10. -/
theorem C4_calculate_thd :
    (∀ (harmonics : List (ℕ × ℚ × ℚ)) (fund : ℚ),
      (fund = 0 → calculate_thd harmonics fund = 0) ∧
      (fund ≠ 0 → calculate_thd harmonics fund =
        100 * Real.sqrt (((harmonics.filter (fun h => 1 < h.1)).map
          (fun h => h.2.1 ^ 2)).sum : ℚ) / (fund : ℝ))) ∧
    calculate_thd [(1, 10, 0), (3, 1, 0)] 10 = 10 := by
  constructor
  · intro harmonics fund
    constructor
    · intro h
      simp [calculate_thd, h]
    · intro h
      rw [calculate_thd, if_neg h, thd_foldl_eq_sum, zero_add]
      ring
  · rw [calculate_thd, if_neg (by norm_num)]
    norm_num [thd_foldl_eq_sum]

/-- C4 witness: the theorem applied at a zero fundamental and at a concrete
harmonic map. -/
theorem C4_calculate_thd_witness :
    calculate_thd [(2, 3, 0)] 0 = 0 ∧
    calculate_thd [(2, 3, 0)] 5 = 100 * Real.sqrt ((9 : ℚ)) / ((5 : ℚ) : ℝ) := by
  constructor
  · exact (C4_calculate_thd.1 [(2, 3, 0)] 0).1 rfl
  · have h := (C4_calculate_thd.1 [(2, 3, 0)] 5).2 (by norm_num)
    rw [h]
    norm_num

/-! ## Claim C10: digital channel classification and derived values -/

/-- C10: a channel whose sample array is empty or all-0/1 is DIGITAL (the
membership test is vacuously true for an empty array), so `rms_value` and
`peak_value` return 0 regardless of multiplier and offset — the CFG-declared
type plays no role in `channel_type`. -/
theorem C10_digital_channel_values :
    ∀ ch : ChannelInfo,
      (ch.data = [] ∨ ∀ v ∈ ch.data, v = 0 ∨ v = 1) →
      ch.channel_type = ChannelType.DIGITAL ∧ ch.rms_value = 0 ∧ ch.peak_value = 0 := by
  intro ch h
  have hall : (ch.data.all fun v => decide (v = 0) || decide (v = 1)) = true := by
    rw [List.all_eq_true]
    intro v hv
    rcases h with h | h
    · rw [h] at hv
      exact absurd hv (List.not_mem_nil v)
    · rcases h v hv with h0 | h0 <;> simp [h0]
  have htype : ch.channel_type = ChannelType.DIGITAL := by
    simp [ChannelInfo.channel_type, hall]
  refine ⟨htype, ?_, ?_⟩
  · rw [ChannelInfo.rms_value, if_neg]
    rintro ⟨ha, -⟩
    rw [htype] at ha
    cases ha
  · rw [ChannelInfo.peak_value, if_neg]
    rintro ⟨ha, -⟩
    rw [htype] at ha
    cases ha

/-- C10 witness: a channel declared with samples `[0, 1, 1]` and non-trivial
multiplier/offset. -/
theorem C10_digital_channel_values_witness :
    ({ name := "IA", data := [0, 1, 1], multiplier := 5, offset := 7 } : ChannelInfo).channel_type
        = ChannelType.DIGITAL ∧
    ({ name := "IA", data := [0, 1, 1], multiplier := 5, offset := 7 } : ChannelInfo).rms_value = 0 ∧
    ({ name := "IA", data := [0, 1, 1], multiplier := 5, offset := 7 } : ChannelInfo).peak_value = 0 :=
  C10_digital_channel_values _ (Or.inr (by
    intro v hv
    simp only [List.mem_cons, List.not_mem_nil, or_false] at hv
    rcases hv with h | h | h <;> simp [h]))

/-! ## Claim C6: resampling length -/

/-- C6 counterexample: a 5-sample signal resampled from 2 Hz to 3 Hz has
`int(5·1.5) = 7` samples, not `round(7.5) = 8` as the claim states. -/
theorem C6_counterexample :
    (resample_signal [1, 2, 3, 4, 5] 2 3).length ≠ (round ((5 : ℚ) * (3 / 2))).toNat := by
  have htr : pyTrunc ((([1, 2, 3, 4, 5] : List ℚ).length : ℚ) * (3 / 2)) = 7 := by
    rw [pyTrunc, if_pos (by norm_num)]
    norm_num
  have hlhs : (resample_signal [1, 2, 3, 4, 5] 2 3).length = 7 := by
    rw [resample_signal, if_neg (by norm_num), scipyResample, htr]
    simp
  have hrhs : (round ((5 : ℚ) * (3 / 2))).toNat = 8 := by
    rw [round_eq]
    norm_num
    decide
  rw [hlhs, hrhs]
  decide

/-- C6 (amended): `resample_signal` is the identity for equal rates and
otherwise returns exactly `int(len(x)·target_fs/original_fs)` samples, where
`int` truncates toward zero (the floor, for the usual positive rates) — not
the rounded value. -/
theorem C6_resample_length :
    ∀ (data : List ℚ) (original_fs target_fs : ℚ),
      (original_fs = target_fs → resample_signal data original_fs target_fs = data) ∧
      (original_fs ≠ target_fs →
        (resample_signal data original_fs target_fs).length =
          (pyTrunc ((data.length : ℚ) * (target_fs / original_fs))).toNat) := by
  intro data ofs tfs
  constructor
  · intro h
    rw [resample_signal, if_pos h]
  · intro h
    rw [resample_signal, if_neg h, scipyResample]
    simp [List.length_take, List.length_append]

/-- C6 witness: identity at equal rates, truncated length at 2 Hz → 3 Hz. -/
theorem C6_resample_length_witness :
    resample_signal [1, 2, 3] 4 4 = [1, 2, 3] ∧
    (resample_signal [1, 2, 3, 4, 5] 2 3).length =
      (pyTrunc ((([1, 2, 3, 4, 5] : List ℚ).length : ℚ) * (3 / 2))).toNat := by
  constructor
  · exact (C6_resample_length [1, 2, 3] 4 4).1 rfl
  · exact (C6_resample_length [1, 2, 3, 4, 5] 2 3).2 (by norm_num)

/-! ## Claim C9: detect_faults failure semantics -/

/-- C9: `detect_faults` never raises: when its body raises (the `Except`
error of any sub-detector propagates) the top-level handler returns the
empty list; on the normal path it returns the merged, time-sorted events. -/
theorem C9_detect_faults_total :
    ∀ (d : ExternalDetectors) (cfg : FaultDetectionConfig) (r : ComtradeRecord),
      (∀ msg, detect_faults_body d cfg r = Except.error msg → detect_faults d cfg r = []) ∧
      (∀ evs, detect_faults_body d cfg r = Except.ok evs →
        detect_faults d cfg r = sortByStart (merge_overlapping_events evs)) := by
  intro d cfg r
  constructor
  · intro msg h
    rw [detect_faults, h]
  · intro evs h
    rw [detect_faults, h]

/-- C9 witness: a detector set whose first sub-detector raises makes
`detect_faults` return `[]`. -/
theorem C9_detect_faults_total_witness :
    detect_faults
      { voltage := fun _ _ => Except.error "boom"
        current := fun _ _ => Except.ok []
        frequency := fun _ _ => Except.ok []
        harmonic := fun _ _ => Except.ok []
        unbalance := fun _ _ => Except.ok [] } {} {} = [] :=
  (C9_detect_faults_total _ {} {}).1 "boom" rfl

end Comtrade

namespace Comtrade

/-! ## Claim C8: pattern template match scoring -/

theorem pyMaxQ_eq_max (a b : ℚ) : pyMaxQ a b = max a b := by
  simp [pyMaxQ, max_def]

theorem match_score_foldl (features : List (String × ℚ × ℚ))
    (input : List (String × ℚ)) (a : ℚ) (n : ℕ) :
    features.foldl
      (fun (acc : ℚ × ℕ) f =>
        match input.lookup f.1 with
        | some value => (acc.1 + featureScore f.2.1 f.2.2 value, acc.2 + 1)
        | none => acc) (a, n) =
      (a + (matchedScores features input).sum,
        n + (matchedScores features input).length) := by
  induction features generalizing a n with
  | nil => simp [matchedScores]
  | cons f t ih =>
    cases h : input.lookup f.1 with
    | none =>
      simp only [List.foldl_cons, h]
      rw [ih]
      simp [matchedScores, List.filterMap_cons, h]
    | some v =>
      simp only [List.foldl_cons, h]
      rw [ih]
      simp [matchedScores, List.filterMap_cons, h, add_assoc]
      omega

/-- C8: the per-feature score of `match_score` is 1.0 exactly on a range
boundary, `max(0, 1 − deviation/violated bound)` out of range — so a value
exactly 100% beyond either bound scores 0 — and the total score is the mean
of the per-feature scores over the features present in the input, 0 when
none are present. -/
theorem C8_match_score :
    (∀ min_val max_val : ℚ, min_val ≤ max_val →
      featureScore min_val max_val min_val = 1 ∧
        featureScore min_val max_val max_val = 1) ∧
    (∀ min_val max_val value : ℚ, value < min_val →
      featureScore min_val max_val value = max 0 (1 - (min_val - value) / min_val)) ∧
    (∀ min_val max_val value : ℚ, min_val ≤ max_val → max_val < value →
      featureScore min_val max_val value = max 0 (1 - (value - max_val) / max_val)) ∧
    (∀ min_val max_val : ℚ, 0 < min_val → featureScore min_val max_val 0 = 0) ∧
    (∀ min_val max_val : ℚ, 0 < max_val → min_val ≤ max_val →
      featureScore min_val max_val (2 * max_val) = 0) ∧
    (∀ (features : List (String × ℚ × ℚ)) (input : List (String × ℚ)),
      match_score features input =
        if matchedScores features input = [] then 0
        else (matchedScores features input).sum /
          ((matchedScores features input).length : ℚ)) := by
  refine ⟨?_, ?_, ?_, ?_, ?_, ?_⟩
  · intro mn mx h
    constructor
    · rw [featureScore, if_pos ⟨le_refl mn, h⟩]
    · rw [featureScore, if_pos ⟨h, le_refl mx⟩]
  · intro mn mx v h
    rw [featureScore, if_neg (by rintro ⟨h1, -⟩; exact absurd h (not_lt.mpr h1)),
      if_pos h, pyMaxQ_eq_max]
  · intro mn mx v hle h
    rw [featureScore, if_neg (by rintro ⟨-, h2⟩; exact absurd h (not_lt.mpr h2)),
      if_neg (not_lt.mpr (le_trans hle (le_of_lt h))), pyMaxQ_eq_max]
  · intro mn mx h
    rw [featureScore, if_neg (by rintro ⟨h1, -⟩; exact absurd h (not_lt.mpr h1)),
      if_pos h, pyMaxQ_eq_max]
    rw [sub_zero, div_self (ne_of_gt h)]
    norm_num
  · intro mn mx hmx hle
    have hgt : mx < 2 * mx := by linarith
    rw [featureScore, if_neg (by rintro ⟨-, h2⟩; exact absurd hgt (not_lt.mpr h2)),
      if_neg (not_lt.mpr (le_trans hle (le_of_lt hgt))), pyMaxQ_eq_max]
    rw [show 2 * mx - mx = mx from by ring, div_self (ne_of_gt hmx)]
    norm_num
  · intro features input
    rw [match_score]
    simp only [match_score_foldl features input 0 0, zero_add, Nat.zero_add]
    rcases eq_or_ne (matchedScores features input) [] with h | h
    · simp [h]
    · rw [if_neg h, if_pos (List.length_pos.mpr h)]

/-- C8 witness: boundary, 100%-beyond and mean behavior on concrete
templates. -/
theorem C8_match_score_witness :
    featureScore 1 2 1 = 1 ∧ featureScore 2 4 0 = 0 ∧ featureScore 1 3 6 = 0 ∧
    match_score [("a", 1, 2)] [("a", 3)] = 1 / 2 ∧
    match_score [("a", 1, 2)] [("b", 3)] = 0 := by
  refine ⟨(C8_match_score.1 1 2 (by norm_num)).1,
    C8_match_score.2.2.2.1 2 4 (by norm_num), ?_, ?_, ?_⟩
  · have h := C8_match_score.2.2.2.2.1 1 3 (by norm_num) (by norm_num)
    norm_num at h
    exact h
  · rw [C8_match_score.2.2.2.2.2 [("a", 1, 2)] [("a", 3)]]
    have hs : matchedScores [("a", 1, 2)] [("a", 3)] = [featureScore 1 2 3] := by
      simp [matchedScores, List.filterMap_cons, List.lookup]
    rw [hs, C8_match_score.2.2.1 1 2 3 (by norm_num) (by norm_num)]
    norm_num
  · rw [C8_match_score.2.2.2.2.2 [("a", 1, 2)] [("b", 3)]]
    have hs : matchedScores [("a", 1, 2)] [("b", 3)] = [] := by
      simp [matchedScores, List.filterMap_cons, List.lookup]
    rw [hs]
    simp

end Comtrade

namespace Comtrade

/-! ## Claim C1: merge post-pass and final sorting -/

/-- C1: `detect_faults` output is sorted by start time for every detector
set, configuration and record; the merge post-pass combines two events
exactly when the later-starting one begins before the earlier one ends and
both have the same fault type — producing one event spanning the union with
max severity, averaged confidence and the union of the affected-channel
sets — while overlapping events of different types stay separate. -/
theorem C1_detect_faults_sorted_and_merged :
    (∀ (d : ExternalDetectors) (cfg : FaultDetectionConfig) (r : ComtradeRecord),
      (detect_faults d cfg r).Sorted evLe) ∧
    (∀ e1 e2 : FaultEvent, e1.start_time ≤ e2.start_time →
      merge_overlapping_events [e1, e2] =
        if e2.start_time ≤ e1.end_time ∧ e2.fault_type = e1.fault_type
        then [mergeTwo e1 e2] else [e1, e2]) ∧
    (∀ e1 e2 : FaultEvent,
      (mergeTwo e1 e2).start_time = e1.start_time ∧
      (mergeTwo e1 e2).end_time = max e1.end_time e2.end_time ∧
      (mergeTwo e1 e2).severity = max e1.severity e2.severity ∧
      (mergeTwo e1 e2).confidence = (e1.confidence + e2.confidence) / 2 ∧
      (∀ c, c ∈ (mergeTwo e1 e2).affected_channels ↔
        c ∈ e1.affected_channels ∨ c ∈ e2.affected_channels) ∧
      (mergeTwo e1 e2).fault_type = e1.fault_type ∧
      (mergeTwo e1 e2).description = e1.description ++ "; " ++ e2.description) := by
  refine ⟨?_, ?_, ?_⟩
  · intro d cfg r
    rw [detect_faults]
    cases h : detect_faults_body d cfg r with
    | ok evs => exact List.sorted_insertionSort evLe _
    | error msg => exact List.sorted_nil
  · intro e1 e2 h
    have hsort : sortByStart [e1, e2] = [e1, e2] := by
      simp only [sortByStart, List.insertionSort, List.orderedInsert]
      rw [if_pos (show evLe e1 e2 from h)]
    rw [merge_overlapping_events, hsort]
    simp only [List.foldl_cons, List.foldl_nil, mergeFold]
    by_cases hc : e2.start_time ≤ e1.end_time ∧ e2.fault_type = e1.fault_type
    · rw [if_pos hc, if_pos hc]
      rfl
    · rw [if_neg hc, if_neg hc]
      rfl
  · intro e1 e2
    refine ⟨rfl, ?_, ?_, rfl, ?_, rfl, rfl⟩
    · simp [mergeTwo, pyMaxQ_eq_max]
    · simp [mergeTwo, pyMaxQ_eq_max]
    · intro c
      simp [mergeTwo, List.mem_dedup, List.mem_append]

/-- C1 witness: two overlapping UNDERVOLTAGE events merge into one spanning
both with max severity and averaged confidence; an overlapping UNDERVOLTAGE
and OVERCURRENT pair stays two events; and a concrete `detect_faults` run is
sorted. -/
theorem C1_detect_faults_sorted_and_merged_witness :
    merge_overlapping_events
        [{ start_time := 0, end_time := 2, fault_type := FaultType.UNDERVOLTAGE,
           affected_channels := ["VA"], severity := 1/2, confidence := 4/5,
           description := "a" },
         { start_time := 1, end_time := 3, fault_type := FaultType.UNDERVOLTAGE,
           affected_channels := ["VB"], severity := 7/10, confidence := 3/5,
           description := "b" }] =
      [mergeTwo
        { start_time := 0, end_time := 2, fault_type := FaultType.UNDERVOLTAGE,
          affected_channels := ["VA"], severity := 1/2, confidence := 4/5,
          description := "a" }
        { start_time := 1, end_time := 3, fault_type := FaultType.UNDERVOLTAGE,
          affected_channels := ["VB"], severity := 7/10, confidence := 3/5,
          description := "b" }] ∧
    merge_overlapping_events
        [{ start_time := 0, end_time := 2, fault_type := FaultType.UNDERVOLTAGE,
           affected_channels := ["VA"], severity := 1/2, confidence := 4/5,
           description := "a" },
         { start_time := 1, end_time := 3, fault_type := FaultType.OVERCURRENT,
           affected_channels := ["IA"], severity := 7/10, confidence := 3/5,
           description := "c" }] =
      [{ start_time := 0, end_time := 2, fault_type := FaultType.UNDERVOLTAGE,
         affected_channels := ["VA"], severity := 1/2, confidence := 4/5,
         description := "a" },
       { start_time := 1, end_time := 3, fault_type := FaultType.OVERCURRENT,
         affected_channels := ["IA"], severity := 7/10, confidence := 3/5,
         description := "c" }] ∧
    (detect_faults
      { voltage := fun _ _ => Except.ok []
        current := fun _ _ => Except.ok []
        frequency := fun _ _ => Except.ok []
        harmonic := fun _ _ => Except.ok []
        unbalance := fun _ _ => Except.error "fail" } {} {}).Sorted evLe := by
  refine ⟨?_, ?_, C1_detect_faults_sorted_and_merged.1 _ {} {}⟩
  · rw [C1_detect_faults_sorted_and_merged.2.1 _ _ (by norm_num)]
    rw [if_pos ⟨by norm_num, rfl⟩]
  · rw [C1_detect_faults_sorted_and_merged.2.1 _ _ (by norm_num)]
    rw [if_neg]
    rintro ⟨-, h⟩
    cases h

end Comtrade

namespace Comtrade

/-! ## Claim C2: event time-span invariant of the per-type sub-detectors -/

set_option maxHeartbeats 2000000 in
/-- C2 (code bug): on a record whose time axis does not start at 0, the
short-circuit detector emits an event with `end_time < start_time`: the
claimed clamp "to record end" is implemented as `min(start + 0.5,
record.duration)`, but `duration = t[-1] - t[0]` is the record length, which
lies before `start_time` whenever the axis starts late enough.  The same
`min(…, record.duration)` clamp appears in the transient detector. -/
theorem C2_short_circuit_clamp_bug :
    detect_short_circuit_faults {} c2Record = [c2Event] ∧
      c2Event.end_time < c2Event.start_time := by
  constructor
  · have hcur : isCurrentName "IA" = true := by decide
    norm_num [detect_short_circuit_faults, c2Record, c2Event, find_current_channels,
      hcur, pyDiff, pyAbsQ,
      absGtStdMulB, pyVar, pyMean, pyMeanNan, pySlice, pyMinQ,
      classify_short_circuit_type, ComtradeRecord.duration, List.range_succ,
      List.filterMap_cons, List.filterMap_nil]
    decide
  · rw [c2Event]
    norm_num

end Comtrade

namespace Comtrade

/-! ## Claim C5: single-sided FFT spectrum -/

theorem fftfreq_length (n : ℕ) (d : ℚ) : (fftfreq n d).length = n := by
  rw [fftfreq, List.length_append, List.length_map, List.length_range,
    List.length_map, List.length_range]
  omega

theorem halveHead_getD (l : List ℝ) (k : ℕ) (hk : k < l.length) :
    (halveHead l).getD k 0 = if k = 0 then l.getD 0 0 / 2 else l.getD k 0 := by
  cases l with
  | nil => simp at hk
  | cons x xs =>
    cases k with
    | zero => simp [halveHead]
    | succ m => simp [halveHead]

theorem halveHead_length (l : List ℝ) : (halveHead l).length = l.length := by
  cases l <;> simp [halveHead]

/-- C5: for a non-empty signal of length N, `fft_analysis` returns the first
N/2 frequency bins `k·fs/N` (all in `[0, fs/2)`) and, for every bin `k`, the
magnitude `2·|FFT[k]|/N`, except the DC bin whose magnitude is `|FFT[0]|/N`;
the external complex FFT satisfies its one-bin-per-sample contract. -/
theorem C5_fft_analysis :
    ∀ (fftImpl : List ℚ → List ℂ) (data : List ℚ) (fs : ℚ),
      (fftImpl data).length = data.length → data ≠ [] → 0 < fs →
      (fft_analysis fftImpl data fs).1.length = data.length / 2 ∧
      (fft_analysis fftImpl data fs).2.length = data.length / 2 ∧
      (∀ k, k < data.length / 2 →
        (fft_analysis fftImpl data fs).1.getD k 0 = (k : ℚ) * fs / (data.length : ℚ) ∧
        0 ≤ (fft_analysis fftImpl data fs).1.getD k 0 ∧
        (fft_analysis fftImpl data fs).1.getD k 0 < fs / 2 ∧
        (fft_analysis fftImpl data fs).2.getD k 0 =
          (if k = 0 then 1 else 2) * Complex.abs ((fftImpl data).getD k 0) /
            (data.length : ℝ)) := by
  intro fftImpl data fs hlen hne hfs
  have hn : 0 < data.length := List.length_pos.mpr hne
  have hnQ : (0 : ℚ) < (data.length : ℚ) := by exact_mod_cast hn
  have hfreqlen : (fftfreq data.length (1 / fs)).length = data.length :=
    fftfreq_length data.length (1 / fs)
  refine ⟨?_, ?_, ?_⟩
  · simp only [fft_analysis, List.length_take, hfreqlen]
    omega
  · simp only [fft_analysis, halveHead_length, List.length_take, List.length_map, hlen]
    omega
  · intro k hk
    have hkn : k < data.length := lt_of_lt_of_le hk (Nat.div_le_self _ _)
    have hkpos : k < data.length - data.length / 2 := by omega
    have h2k : 2 * k < data.length := by omega
    have hfreq : (fft_analysis fftImpl data fs).1.getD k 0 =
        (k : ℚ) * fs / (data.length : ℚ) := by
      simp only [fft_analysis, List.getD_eq_getElem?_getD]
      rw [List.getElem?_take_of_lt (by rw [hfreqlen]; exact hk)]
      rw [fftfreq, List.getElem?_append_left (by
        rw [List.length_map, List.length_range]; exact hkpos)]
      rw [List.getElem?_map, List.getElem?_range hkpos]
      simp only [Option.map_some', Option.getD_some]
      field_simp
    refine ⟨hfreq, ?_, ?_, ?_⟩
    · rw [hfreq]
      positivity
    · rw [hfreq, div_lt_div_iff₀ hnQ (by norm_num : (0:ℚ) < 2)]
      have h2kQ : (2 : ℚ) * (k : ℚ) < (data.length : ℚ) := by exact_mod_cast h2k
      nlinarith
    · simp only [fft_analysis]
      have hmlen : k <
          (((fftImpl data).take ((fftImpl data).length / 2)).map
            (fun z => Complex.abs z * 2 / (data.length : ℝ))).length := by
        rw [List.length_map, List.length_take, hlen]
        omega
      rw [halveHead_getD _ k hmlen]
      have hget : ∀ j, j < data.length / 2 →
          (((fftImpl data).take ((fftImpl data).length / 2)).map
            (fun z => Complex.abs z * 2 / (data.length : ℝ))).getD j 0 =
            Complex.abs ((fftImpl data).getD j 0) * 2 / (data.length : ℝ) := by
        intro j hj
        rw [List.getD_eq_getElem?_getD, List.getElem?_map,
          List.getElem?_take_of_lt (by rw [hlen]; exact hj)]
        rw [List.getD_eq_getElem?_getD]
        cases hx : (fftImpl data)[j]? with
        | none =>
          rw [List.getElem?_eq_none_iff, hlen] at hx
          omega
        | some z => simp
      rcases eq_or_ne k 0 with hk0 | hk0
      · subst hk0
        rw [if_pos rfl, if_pos rfl, hget 0 hk]
        ring
      · rw [if_neg hk0, if_neg hk0, hget k hk]
        ring

/-- C5 witness: the identity-embedding FFT on `[1, 2]` at 2 Hz gives the DC
bin frequency 0 and magnitude `|1|/2 = 1/2`. -/
theorem C5_fft_analysis_witness :
    (fft_analysis (fun l => l.map (fun q => (q : ℂ))) [1, 2] 2).1.getD 0 0 = 0 ∧
    (fft_analysis (fun l => l.map (fun q => (q : ℂ))) [1, 2] 2).2.getD 0 0 = 1 / 2 := by
  have h := C5_fft_analysis (fun l => l.map (fun q => (q : ℂ))) [1, 2] 2
    (by simp) (by simp) (by norm_num)
  have h0 := h.2.2 0 (by norm_num)
  constructor
  · rw [h0.1]
    norm_num
  · rw [h0.2.2.2]
    norm_num

end Comtrade

namespace Comtrade

/-! ## Claim C7: preprocessing shares no array state with its input -/

theorem storePrefix_refl (s : Store) : storePrefix s s := ⟨[], (List.append_nil s).symm⟩

theorem storePrefix_trans {s1 s2 s3 : Store} (ha : storePrefix s1 s2)
    (hb : storePrefix s2 s3) : storePrefix s1 s3 := by
  obtain ⟨t1, rfl⟩ := ha
  obtain ⟨t2, rfl⟩ := hb
  exact ⟨t1 ++ t2, List.append_assoc s1 t1 t2⟩

theorem storePrefix_length {s s' : Store} (h : storePrefix s s') :
    s.length ≤ s'.length := by
  obtain ⟨t, rfl⟩ := h
  simp

theorem storePrefix_alloc (s : Store) (v : List ℚ) : storePrefix s (allocArr s v).1 :=
  ⟨[v], rfl⟩

theorem readArr_of_storePrefix {s s' : Store} (h : storePrefix s s') {ref : ℕ}
    (hr : ref < s.length) : readArr s' ref = readArr s ref := by
  obtain ⟨t, rfl⟩ := h
  exact List.getD_append s t [] ref hr

theorem readArr_write_ne (s : Store) {ref' ref : ℕ} (h : ref ≠ ref') (v : List ℚ) :
    readArr (writeArr s ref' v) ref = readArr s ref := by
  unfold readArr writeArr
  rw [List.getD_eq_getElem?_getD, List.getD_eq_getElem?_getD,
    List.getElem?_set_ne (Ne.symm h)]

theorem stepOk_allocStep (s0 : Store) (c0 : ℕ) (prev : ChannelRef × Store) (v : List ℚ)
    (h : stepOk s0 c0 prev) :
    stepOk s0 c0
      ({ prev.1 with dataRef := (allocArr prev.2 v).2 }, (allocArr prev.2 v).1) := by
  obtain ⟨hpre, -⟩ := h
  exact ⟨storePrefix_trans hpre (storePrefix_alloc _ _), Or.inr (storePrefix_length hpre)⟩

theorem stepOk_condAlloc (s0 : Store) (c0 : ℕ) (prev : ChannelRef × Store) (cond : Prop)
    [Decidable cond] (v : List ℚ) (h : stepOk s0 c0 prev) :
    stepOk s0 c0
      (if cond then ({ prev.1 with dataRef := (allocArr prev.2 v).2 }, (allocArr prev.2 v).1)
       else prev) := by
  split
  · exact stepOk_allocStep s0 c0 prev v h
  · exact h

theorem stepOk_ite (s0 : Store) (c0 : ℕ) (cond : Prop) [Decidable cond]
    (a b : ChannelRef × Store) (ha : stepOk s0 c0 a) (hb : stepOk s0 c0 b) :
    stepOk s0 c0 (if cond then a else b) := by
  split
  · exact ha
  · exact hb

theorem processAnalogChannel_spec (ext : PreprocessExternals) (cfg : PreprocessConfig)
    (freq : ℚ) (taRef : ℕ) (s : Store) (ch : ChannelRef) :
    stepOk s ch.dataRef (processAnalogChannel ext cfg freq taRef s ch) := by
  simp only [processAnalogChannel]
  apply stepOk_ite
  · cases htgt : cfg.target_sampling_rate with
    | none =>
      dsimp only
      repeat apply stepOk_condAlloc
      exact ⟨storePrefix_refl s, Or.inl rfl⟩
    | some t =>
      dsimp only
      apply stepOk_ite
      · apply stepOk_ite
        · apply stepOk_allocStep
          repeat apply stepOk_condAlloc
          exact ⟨storePrefix_refl s, Or.inl rfl⟩
        · repeat apply stepOk_condAlloc
          exact ⟨storePrefix_refl s, Or.inl rfl⟩
      · repeat apply stepOk_condAlloc
        exact ⟨storePrefix_refl s, Or.inl rfl⟩
  · repeat apply stepOk_condAlloc
    exact ⟨storePrefix_refl s, Or.inl rfl⟩

theorem processAnalogChannels_spec (ext : PreprocessExternals) (cfg : PreprocessConfig)
    (freq : ℚ) (taRef : ℕ) :
    ∀ (chs : List ChannelRef) (s : Store),
      storePrefix s (processAnalogChannels ext cfg freq taRef s chs).2 ∧
      ∀ ch' ∈ (processAnalogChannels ext cfg freq taRef s chs).1,
        (∃ ch ∈ chs, ch'.dataRef = ch.dataRef) ∨ s.length ≤ ch'.dataRef := by
  intro chs
  induction chs with
  | nil =>
    intro s
    exact ⟨storePrefix_refl s, by simp [processAnalogChannels]⟩
  | cons ch rest ih =>
    intro s
    have hp := processAnalogChannel_spec ext cfg freq taRef s ch
    obtain ⟨hpre1, href1⟩ := hp
    obtain ⟨hpre2, href2⟩ := ih (processAnalogChannel ext cfg freq taRef s ch).2
    constructor
    · exact storePrefix_trans hpre1 hpre2
    · intro ch' hch'
      simp only [processAnalogChannels, List.mem_cons] at hch'
      rcases hch' with hch' | hch'
      · subst hch'
        rcases href1 with h | h
        · exact Or.inl ⟨ch, List.mem_cons_self ch rest, h⟩
        · exact Or.inr h
      · rcases href2 ch' hch' with ⟨c, hc, he⟩ | h
        · exact Or.inl ⟨c, List.mem_cons_of_mem ch hc, he⟩
        · exact Or.inr (le_trans (storePrefix_length hpre1) h)

theorem processDigitalChannel_spec (cfg : PreprocessConfig) (s : Store) (ch : ChannelRef) :
    stepOk s ch.dataRef (processDigitalChannel cfg s ch) := by
  simp only [processDigitalChannel]
  split
  · apply stepOk_allocStep
    split
    · exact ⟨storePrefix_alloc _ _, Or.inr (le_refl _)⟩
    · exact ⟨storePrefix_refl s, Or.inl rfl⟩
  · split
    · exact ⟨storePrefix_alloc _ _, Or.inr (le_refl _)⟩
    · exact ⟨storePrefix_refl s, Or.inl rfl⟩

theorem processDigitalChannels_spec (cfg : PreprocessConfig) :
    ∀ (chs : List ChannelRef) (s : Store),
      storePrefix s (processDigitalChannels cfg s chs).2 ∧
      ∀ ch' ∈ (processDigitalChannels cfg s chs).1,
        (∃ ch ∈ chs, ch'.dataRef = ch.dataRef) ∨ s.length ≤ ch'.dataRef := by
  intro chs
  induction chs with
  | nil =>
    intro s
    exact ⟨storePrefix_refl s, by simp [processDigitalChannels]⟩
  | cons ch rest ih =>
    intro s
    obtain ⟨hpre1, href1⟩ := processDigitalChannel_spec cfg s ch
    obtain ⟨hpre2, href2⟩ := ih (processDigitalChannel cfg s ch).2
    constructor
    · exact storePrefix_trans hpre1 hpre2
    · intro ch' hch'
      simp only [processDigitalChannels, List.mem_cons] at hch'
      rcases hch' with hch' | hch'
      · subst hch'
        rcases href1 with h | h
        · exact Or.inl ⟨ch, List.mem_cons_self ch rest, h⟩
        · exact Or.inr h
      · rcases href2 ch' hch' with ⟨c, hc, he⟩ | h
        · exact Or.inl ⟨c, List.mem_cons_of_mem ch hc, he⟩
        · exact Or.inr (le_trans (storePrefix_length hpre1) h)

theorem copyAnalogChannels_spec :
    ∀ (chs : List ChannelRef) (s : Store),
      storePrefix s (copyAnalogChannels s chs).2 ∧
      ∀ ch' ∈ (copyAnalogChannels s chs).1, s.length ≤ ch'.dataRef := by
  intro chs
  induction chs with
  | nil =>
    intro s
    exact ⟨storePrefix_refl s, by simp [copyAnalogChannels]⟩
  | cons ch rest ih =>
    intro s
    obtain ⟨hpre, href⟩ := ih (allocArr s (readArr s ch.dataRef)).1
    constructor
    · exact storePrefix_trans (storePrefix_alloc _ _) hpre
    · intro ch' hch'
      simp only [copyAnalogChannels, List.mem_cons] at hch'
      rcases hch' with hch' | hch'
      · subst hch'
        exact le_refl _
      · exact le_trans (by simp [allocArr]) (href ch' hch')

theorem copyDigitalChannels_spec :
    ∀ (chs : List ChannelRef) (s : Store),
      storePrefix s (copyDigitalChannels s chs).2 ∧
      ∀ ch' ∈ (copyDigitalChannels s chs).1, s.length ≤ ch'.dataRef := by
  intro chs
  induction chs with
  | nil =>
    intro s
    exact ⟨storePrefix_refl s, by simp [copyDigitalChannels]⟩
  | cons ch rest ih =>
    intro s
    obtain ⟨hpre, href⟩ := ih (allocArr s (readArr s ch.dataRef)).1
    constructor
    · exact storePrefix_trans (storePrefix_alloc _ _) hpre
    · intro ch' hch'
      simp only [copyDigitalChannels, List.mem_cons] at hch'
      rcases hch' with hch' | hch'
      · subst hch'
        exact le_refl _
      · exact le_trans (by simp [allocArr]) (href ch' hch')

theorem copy_record_spec (s : Store) (r : RecordRef) :
    storePrefix s (copy_record s r).2 ∧
    ∀ ref ∈ recordRefs (copy_record s r).1, s.length ≤ ref := by
  obtain ⟨hpreA, hrefA⟩ := copyAnalogChannels_spec r.analog_channels s
  obtain ⟨hpreD, hrefD⟩ :=
    copyDigitalChannels_spec r.digital_channels (copyAnalogChannels s r.analog_channels).2
  constructor
  · exact storePrefix_trans hpreA (storePrefix_trans hpreD (storePrefix_alloc _ _))
  · intro ref href
    simp only [copy_record, recordRefs, List.mem_cons, List.mem_append,
      List.mem_map] at href
    rcases href with rfl | ⟨c, hc, rfl⟩ | ⟨c, hc, rfl⟩
    · exact le_trans (storePrefix_length hpreA)
        (storePrefix_length hpreD)
    · exact hrefA c hc
    · exact le_trans (storePrefix_length hpreA) (hrefD c hc)

/-- C7: on its normal path, `preprocess_record` returns a record whose every
array (each channel's samples and the time axis) is a fresh allocation: no
reference of the result occurs in the input record, the input's arrays are
unchanged in the final store, and mutating any array of the result leaves
every array of the original record exactly as it was. -/
theorem C7_preprocess_record_no_sharing :
    ∀ (ext : PreprocessExternals) (cfg : PreprocessConfig) (s : Store) (r : RecordRef),
      (∀ ref ∈ recordRefs r, ref < s.length) →
      (∀ ref' ∈ recordRefs (preprocess_record ext cfg s r).1, s.length ≤ ref') ∧
      (∀ ref ∈ recordRefs r,
        readArr (preprocess_record ext cfg s r).2 ref = readArr s ref) ∧
      (∀ ref' ∈ recordRefs (preprocess_record ext cfg s r).1, ∀ v : List ℚ,
        ∀ ref ∈ recordRefs r,
          readArr (writeArr (preprocess_record ext cfg s r).2 ref' v) ref =
            readArr s ref) := by
  intro ext cfg s r hvalid
  obtain ⟨hpreC, hrefC⟩ := copy_record_spec s r
  have hta : s.length ≤ (copy_record s r).1.time_axisRef :=
    hrefC _ (by simp [recordRefs])
  have hanC : ∀ ch ∈ (copy_record s r).1.analog_channels, s.length ≤ ch.dataRef := by
    intro ch hch
    exact hrefC ch.dataRef (by
      simp only [recordRefs, List.mem_cons, List.mem_append, List.mem_map]
      exact Or.inr (Or.inl ⟨ch, hch, rfl⟩))
  have hdgC : ∀ ch ∈ (copy_record s r).1.digital_channels, s.length ≤ ch.dataRef := by
    intro ch hch
    exact hrefC ch.dataRef (by
      simp only [recordRefs, List.mem_cons, List.mem_append, List.mem_map]
      exact Or.inr (Or.inr ⟨ch, hch, rfl⟩))
  -- the two processing passes, with conditional application
  have hA : ∀ (s1 : Store) (chs : List ChannelRef),
      storePrefix s1
        (if cfg.process_analog = true then
          processAnalogChannels ext cfg (copy_record s r).1.frequency
            (copy_record s r).1.time_axisRef s1 chs
         else (chs, s1)).2 ∧
      ∀ ch' ∈ (if cfg.process_analog = true then
          processAnalogChannels ext cfg (copy_record s r).1.frequency
            (copy_record s r).1.time_axisRef s1 chs
         else (chs, s1)).1,
        (∃ ch ∈ chs, ch'.dataRef = ch.dataRef) ∨ s1.length ≤ ch'.dataRef := by
    intro s1 chs
    split
    · exact processAnalogChannels_spec ext cfg _ _ chs s1
    · exact ⟨storePrefix_refl s1, fun ch' h => Or.inl ⟨ch', h, rfl⟩⟩
  have hD : ∀ (s1 : Store) (chs : List ChannelRef),
      storePrefix s1
        (if cfg.process_digital = true then processDigitalChannels cfg s1 chs
         else (chs, s1)).2 ∧
      ∀ ch' ∈ (if cfg.process_digital = true then processDigitalChannels cfg s1 chs
         else (chs, s1)).1,
        (∃ ch ∈ chs, ch'.dataRef = ch.dataRef) ∨ s1.length ≤ ch'.dataRef := by
    intro s1 chs
    split
    · exact processDigitalChannels_spec cfg chs s1
    · exact ⟨storePrefix_refl s1, fun ch' h => Or.inl ⟨ch', h, rfl⟩⟩
  obtain ⟨hpreA, hrefA⟩ := hA (copy_record s r).2 (copy_record s r).1.analog_channels
  obtain ⟨hpreD, hrefD⟩ := hD _ (copy_record s r).1.digital_channels
  have hfresh : ∀ ref' ∈ recordRefs (preprocess_record ext cfg s r).1, s.length ≤ ref' := by
    intro ref' href'
    simp only [preprocess_record, recordRefs, List.mem_cons, List.mem_append,
      List.mem_map] at href'
    rcases href' with rfl | ⟨c, hc, rfl⟩ | ⟨c, hc, rfl⟩
    · exact hta
    · rcases hrefA c hc with ⟨c0, hc0, he⟩ | h
      · rw [he]
        exact hanC c0 hc0
      · exact le_trans (storePrefix_length hpreC) h
    · rcases hrefD c hc with ⟨c0, hc0, he⟩ | h
      · rw [he]
        exact hdgC c0 hc0
      · exact le_trans (storePrefix_length hpreC)
          (le_trans (storePrefix_length hpreA) h)
  have hprefinal : storePrefix s (preprocess_record ext cfg s r).2 := by
    have : (preprocess_record ext cfg s r).2 =
        (if cfg.process_digital = true then
          processDigitalChannels cfg
            (if cfg.process_analog = true then
              processAnalogChannels ext cfg (copy_record s r).1.frequency
                (copy_record s r).1.time_axisRef (copy_record s r).2
                (copy_record s r).1.analog_channels
             else ((copy_record s r).1.analog_channels, (copy_record s r).2)).2
            (copy_record s r).1.digital_channels
         else ((copy_record s r).1.digital_channels,
            (if cfg.process_analog = true then
              processAnalogChannels ext cfg (copy_record s r).1.frequency
                (copy_record s r).1.time_axisRef (copy_record s r).2
                (copy_record s r).1.analog_channels
             else ((copy_record s r).1.analog_channels, (copy_record s r).2)).2)).2 := by
      simp only [preprocess_record]
    rw [this]
    exact storePrefix_trans hpreC (storePrefix_trans hpreA hpreD)
  have hkeep : ∀ ref ∈ recordRefs r,
      readArr (preprocess_record ext cfg s r).2 ref = readArr s ref := by
    intro ref href
    exact readArr_of_storePrefix hprefinal (hvalid ref href)
  refine ⟨hfresh, hkeep, ?_⟩
  intro ref' href' v ref href
  have h1 : ref ≠ ref' := by
    have := hvalid ref href
    have := hfresh ref' href'
    omega
  rw [readArr_write_ne _ h1 v]
  exact hkeep ref href

end Comtrade

namespace Comtrade

/-- C7 witness: preprocessing (default config, identity externals) of a
record whose time axis lives at store slot 0 and whose one analog channel's
samples live at slot 1: the input arrays are untouched in the output store,
and overwriting the returned record's time-axis array leaves the original
time axis intact. -/
theorem C7_preprocess_record_no_sharing_witness :
    readArr
      (preprocess_record
        { butterLow := fun _ _ _ d => d, butterHigh := fun _ _ _ d => d,
          butterBand := fun _ _ _ _ d => d, zscoreNorm := fun d => d,
          unitNorm := fun d => d } {} [[10, 20], [1, 2, 3]]
        { time_axisRef := 0, analog_channels := [{ name := "VA", dataRef := 1 }] }).2 1 =
      [1, 2, 3] ∧
    readArr
      (writeArr
        (preprocess_record
          { butterLow := fun _ _ _ d => d, butterHigh := fun _ _ _ d => d,
            butterBand := fun _ _ _ _ d => d, zscoreNorm := fun d => d,
            unitNorm := fun d => d } {} [[10, 20], [1, 2, 3]]
          { time_axisRef := 0, analog_channels := [{ name := "VA", dataRef := 1 }] }).2
        (preprocess_record
          { butterLow := fun _ _ _ d => d, butterHigh := fun _ _ _ d => d,
            butterBand := fun _ _ _ _ d => d, zscoreNorm := fun d => d,
            unitNorm := fun d => d } {} [[10, 20], [1, 2, 3]]
          { time_axisRef := 0, analog_channels := [{ name := "VA", dataRef := 1 }] }).1.time_axisRef
        [99]) 0 =
      [10, 20] := by
  have h := C7_preprocess_record_no_sharing
    { butterLow := fun _ _ _ d => d, butterHigh := fun _ _ _ d => d,
      butterBand := fun _ _ _ _ d => d, zscoreNorm := fun d => d,
      unitNorm := fun d => d } {} [[10, 20], [1, 2, 3]]
    { time_axisRef := 0, analog_channels := [{ name := "VA", dataRef := 1 }] }
    (by intro ref href; simp [recordRefs] at href; rcases href with rfl | rfl <;> norm_num)
  constructor
  · have h2 := h.2.1 1 (by simp [recordRefs])
    rw [h2]
    rfl
  · have h3 := h.2.2 _ (by simp only [recordRefs]; exact List.mem_cons_self _ _) [99]
      0 (by simp [recordRefs])
    rw [h3]
    rfl

end Comtrade
